import Mathlib

/-!
Shallow embedding of the kiosk update-distribution backend
(`src/main.rs`, `src/error.rs`) and verification of the spec's claims
about it.

Modelling conventions:
* The filesystem seen by one request is a value: the root listing is a
  list of directory entries in enumeration order, and each platform
  subdirectory read (`tokio::fs::read_dir` of `latest_folder/platform`)
  is a function from the path string to `Option (List FileEntry)`,
  `none` meaning the read fails (missing/unreadable directory).
* Timestamps are whole seconds since the Unix epoch (`Nat`); chrono's
  `to_rfc3339` on a zero-subsecond UTC time is reproduced by
  `toRfc3339`.  Sub-second precision is elided.
* File contents are carried as readable strings: the `read_to_string`
  failure branch (which maps to the same `APIError::Internal`) is not
  modelled.  Fallible metadata calls (`modified()`, `created()`) are
  modelled as creation time being optional with modification time always
  available, matching `metadata.created().or_else(|_| metadata.modified())`.
-/

namespace Kiosk

instance {ε α : Type} [DecidableEq ε] [DecidableEq α] : DecidableEq (Except ε α)
  | .error e, .error f =>
      if h : e = f then .isTrue (by rw [h]) else .isFalse (by simp [h])
  | .error _, .ok _ => .isFalse (by simp)
  | .ok _, .error _ => .isFalse (by simp)
  | .ok a, .ok b =>
      if h : a = b then .isTrue (by rw [h]) else .isFalse (by simp [h])

/-- `APIError` from `src/error.rs`: the three variants of the handler
error type.  `From<io::Error>` maps every I/O error to `Internal`. -/
inductive APIError where
  | Internal
  | NotFound
  | FolderExist
deriving DecidableEq, Repr

/-- One entry of the kiosk root directory listing, as observed by
`get_latest_version`'s first loop: its file name, whether it is a
directory, its modification time, and its creation time when the
platform reports one. -/
structure DirEntry where
  name : String
  isDir : Bool
  modified : Nat
  created : Option Nat
deriving DecidableEq, Repr

/-- One entry of a platform subdirectory listing: file name, whether the
path is a regular file, its content (read for `.sig` files), and its
timestamps (never read by the live code; carried so that spec-side
statements about payload timestamps can be expressed). -/
structure FileEntry where
  name : String
  isFile : Bool
  content : String
  modified : Nat
  created : Option Nat
deriving DecidableEq, Repr

/-- The filesystem tree one `get_latest_version` request observes. -/
structure FS where
  root : List DirEntry
  platformDir : String → Option (List FileEntry)

/-- `PlatformDetails` from `src/main.rs` (fields in source order). -/
structure PlatformDetails where
  signature : String
  url : String
  name : String
deriving DecidableEq, Repr

/-- `Platforms` from `src/main.rs`: the four fixed platform fields. -/
structure Platforms where
  linux_x86_64 : PlatformDetails
  windows_x86_64 : PlatformDetails
  darwin_x86_64 : PlatformDetails
  darwin_aarch64 : PlatformDetails
deriving DecidableEq, Repr

/-- `KioskVersionResponse` from `src/main.rs`. -/
structure KioskVersionResponse where
  version : String
  notes : String
  pub_date : String
  platforms : Platforms
deriving DecidableEq, Repr

/-- The characters after the last `.` of a character list, `none` when
it contains no `.`. -/
def afterLastDot : List Char → Option (List Char)
  | [] => none
  | c :: cs =>
      match afterLastDot cs with
      | some suf => some suf
      | none => if c = '.' then some cs else none

/-- Rust `Path::extension()` on a file name: the portion after the last
`.`, `none` when there is no `.` or the only `.` starts the name. -/
def extOf (name : String) : Option String :=
  match name.data with
  | [] => none
  | c :: cs =>
      (afterLastDot (if c = '.' then cs else c :: cs)).map String.mk

/-- `path.is_file() && path.extension() == Some("sig")` from the platform
scan loop. -/
def isSigFile (f : FileEntry) : Bool :=
  f.isFile && (extOf f.name == some "sig")

/-- `path.is_file() && path.extension() != Some("sig")` from the platform
scan loop. -/
def isPayloadFile (f : FileEntry) : Bool :=
  f.isFile && !(extOf f.name == some "sig")

/-- `format!("{}/{}/{}/{}", kiosk_url, newewst_folder_name, platform_name,
file_name)` from `src/main.rs` line 403. -/
def mkUrl (kiosk_url newewst_folder_name platform_name file_name : String) : String :=
  kiosk_url ++ "/" ++ newewst_folder_name ++ "/" ++ platform_name ++ "/" ++ file_name

/-- The body of the `while let Some(entry) = platform_entries.next_entry()`
loop: a `.sig` file's content replaces `signature`; any other file sets
`url` to the download URL built from its name. -/
def scanFileStep (kiosk_url newewst_folder_name platform_name : String)
    (platform : PlatformDetails) (f : FileEntry) : PlatformDetails :=
  let platform1 :=
    if isSigFile f then { platform with signature := f.content } else platform
  if isPayloadFile f then
    { platform1 with url := mkUrl kiosk_url newewst_folder_name platform_name f.name }
  else platform1

/-- Folding the platform-directory entries through `scanFileStep`, in
listing order (the whole inner `while` loop). -/
def scanPlatform (kiosk_url newewst_folder_name platform_name : String)
    (entries : List FileEntry) (platform : PlatformDetails) : PlatformDetails :=
  entries.foldl (scanFileStep kiosk_url newewst_folder_name platform_name) platform

/-- One iteration of `for platform in platforms.iter_mut()`: read the
platform subdirectory of `latest_folder`; a failed read returns
`APIError::Internal` for the whole request (`src/main.rs` line 382). -/
def scanOnePlatform (fs : FS) (kiosk_url latest_folder newewst_folder_name : String)
    (platform : PlatformDetails) : Except APIError PlatformDetails :=
  match fs.platformDir (latest_folder ++ "/" ++ platform.name) with
  | none => .error .Internal
  | some entries =>
      .ok (scanPlatform kiosk_url newewst_folder_name platform.name entries platform)

/-- The local state threaded through `get_latest_version`'s first loop:
`newest_folder`, `newewst_folder_name` (sic) and `modified_date`. -/
structure RootScanState where
  newest_folder : Option (String × Nat)
  newewst_folder_name : String
  modified_date : Nat
deriving DecidableEq, Repr

/-- The body of `while let Some(entry) = dir.next_entry()`: for a
directory entry, `modified_date` is unconditionally overwritten with the
entry's created-or-modified time, and `newest_folder` /
`newewst_folder_name` are replaced when this entry's modification time
is strictly greater than the current record (or when no record exists). -/
def rootStep (kiosk_directory : String) (st : RootScanState) (e : DirEntry) :
    RootScanState :=
  if e.isDir then
    let path := kiosk_directory ++ "/" ++ e.name
    let modified := e.modified
    let st1 := { st with modified_date := e.created.getD e.modified }
    match st1.newest_folder with
    | some (_, current_time) =>
        if modified > current_time then
          { st1 with newest_folder := some (path, modified),
                     newewst_folder_name := e.name }
        else st1
    | none =>
        { st1 with newest_folder := some (path, modified),
                   newewst_folder_name := e.name }
  else st

/-- The whole first loop of `get_latest_version`, from the initial state
`(None, "", UNIX_EPOCH)`. -/
def rootScan (kiosk_directory : String) (root : List DirEntry) : RootScanState :=
  root.foldl (rootStep kiosk_directory) ⟨none, "", 0⟩

/-- `latest_folder`: the recorded path, or `""` when no directory was
seen (`src/main.rs` lines 290-295). -/
def latestFolder (st : RootScanState) : String :=
  match st.newest_folder with
  | some (folder, _) => folder
  | none => ""

/-- The initial `Platforms` value of `get_latest_version`: empty
signature and url, fixed names. -/
def initPlatforms : Platforms :=
  { linux_x86_64 := ⟨"", "", "linux_x86_64"⟩
    windows_x86_64 := ⟨"", "", "windows_x86_64"⟩
    darwin_x86_64 := ⟨"", "", "darwin_x86_64"⟩
    darwin_aarch64 := ⟨"", "", "darwin_aarch64"⟩ }

/-- Day count since 1970-01-01 to a civil `(year, month, day)` date
(proleptic Gregorian), as chrono computes it for UTC. -/
def civilFromDays (days : Nat) : Nat × Nat × Nat :=
  let z := days + 719468
  let era := z / 146097
  let doe := z % 146097
  let yoe := (doe - doe / 1460 + doe / 36524 - doe / 146097) / 365
  let y := yoe + era * 400
  let doy := doe - (365 * yoe + yoe / 4 - yoe / 100)
  let mp := (5 * doy + 2) / 153
  let d := doy - (153 * mp + 2) / 5 + 1
  let m := if mp < 10 then mp + 3 else mp - 9
  (if m ≤ 2 then y + 1 else y, m, d)

/-- Zero-pad a number below 100 to two digits. -/
def pad2 (n : Nat) : String :=
  if n < 10 then "0" ++ toString n else toString n

/-- chrono's `to_rfc3339` of a UTC time with whole-second precision:
`YYYY-MM-DDTHH:MM:SS+00:00`. -/
def toRfc3339 (t : Nat) : String :=
  let days := t / 86400
  let secs := t % 86400
  let c := civilFromDays days
  toString c.1 ++ "-" ++ pad2 c.2.1 ++ "-" ++ pad2 c.2.2 ++ "T" ++
    pad2 (secs / 3600) ++ ":" ++ pad2 (secs % 3600 / 60) ++ ":" ++
    pad2 (secs % 60) ++ "+00:00"

/-- `get_latest_version` from `src/main.rs` (lines 220-426): scan the
root for the most-recently-modified directory, then scan its four
platform subdirectories in `iter_mut` order (linux, windows,
darwin_x86_64, darwin_aarch64), propagating `Internal` from any failed
platform-directory read, and assemble the response. -/
def getLatestVersion (kiosk_directory kiosk_url : String) (fs : FS) :
    Except APIError KioskVersionResponse :=
  let st := rootScan kiosk_directory fs.root
  let latest_folder := latestFolder st
  match scanOnePlatform fs kiosk_url latest_folder st.newewst_folder_name
      initPlatforms.linux_x86_64 with
  | .error e => .error e
  | .ok lx =>
  match scanOnePlatform fs kiosk_url latest_folder st.newewst_folder_name
      initPlatforms.windows_x86_64 with
  | .error e => .error e
  | .ok wd =>
  match scanOnePlatform fs kiosk_url latest_folder st.newewst_folder_name
      initPlatforms.darwin_x86_64 with
  | .error e => .error e
  | .ok dx =>
  match scanOnePlatform fs kiosk_url latest_folder st.newewst_folder_name
      initPlatforms.darwin_aarch64 with
  | .error e => .error e
  | .ok da =>
      .ok { version := st.newewst_folder_name
            notes := "ini notes"
            pub_date := toRfc3339 st.modified_date
            platforms := ⟨lx, wd, dx, da⟩ }

/-- The four required platform names in the order `Platforms::iter_mut`
yields them. -/
def requiredPlatformNames : List String :=
  ["linux_x86_64", "windows_x86_64", "darwin_x86_64", "darwin_aarch64"]

/-- The hardcoded `platforms` vector of `create_kiosk_version`
(`src/main.rs` lines 108-113), in its source order. -/
def createPlatformNames : List String :=
  ["windows_x86_64", "linux_x86_64", "darwin_x86_64", "darwin_aarch64"]

/-- The filesystem capabilities `create_kiosk_version` consumes:
whether the root listing succeeds, the result of `fs::try_exists`
(`none` models its error branch), and which `fs::create_dir` calls
succeed. -/
structure CreateFS where
  readRootOk : Bool
  tryExists : String → Option Bool
  createDirOk : String → Bool

/-- The platform-subdirectory creation loop of `create_kiosk_version`
(lines 131-139): creates each platform directory in order, accumulating
the created paths; the first failure aborts with `Internal`, keeping
what was already created. -/
def createPlatformDirs (cfs : CreateFS) (base : String) (created : List String) :
    List String → Except APIError Unit × List String
  | [] => (.ok (), created)
  | p :: rest =>
      let pd := base ++ "/" ++ p
      if cfs.createDirOk pd then createPlatformDirs cfs base (created ++ [pd]) rest
      else (.error .Internal, created)

/-- `create_kiosk_version` from `src/main.rs` (lines 98-149), returning
the handler result together with the list of directories it created (in
creation order), to express its filesystem effect.  An existing target
folder yields `FolderExist` before anything is created; a failed
`try_exists` yields `Internal`. -/
def createKioskVersion (cfs : CreateFS) (kiosk_directory version : String) :
    Except APIError Unit × List String :=
  if cfs.readRootOk then
    let kiosk_version_directory := kiosk_directory ++ "/" ++ version
    match cfs.tryExists kiosk_version_directory with
    | none => (.error .Internal, [])
    | some true => (.error .FolderExist, [])
    | some false =>
        if cfs.createDirOk kiosk_version_directory then
          createPlatformDirs cfs kiosk_version_directory [kiosk_version_directory]
            createPlatformNames
        else (.error .Internal, [])
  else (.error .Internal, [])

/-- Whether a path string is absolute (begins with `/`). -/
def isAbsolutePath (p : String) : Bool :=
  match p.data with
  | [] => false
  | c :: _ => c = '/'

/-- Rust `Path::join`: an absolute right-hand side replaces the base. -/
def joinPath (base p : String) : String :=
  if isAbsolutePath p then p else base ++ "/" ++ p

/-- The filesystem capabilities `download_file` consumes: `path.exists()`
and whether `File::open` succeeds. -/
structure DownloadFS where
  pathExists : String → Bool
  openOk : String → Bool

/-- The headers of the streaming response built by `download_file`. -/
structure FileResponse where
  contentType : String
  contentDisposition : String
deriving DecidableEq, Repr

/-- `download_file` from `src/main.rs` (lines 428-479): joins the
requested filename onto the public path, answers `NotFound` when the
path does not exist, `Internal` when opening fails, and otherwise a
response whose content type is the mime guess for the path (falling back
to `application/octet-stream`) with an attachment disposition.  The
mime-guess table is an external collaborator passed as a function. -/
def downloadFile (dfs : DownloadFS) (mimeGuess : String → Option String)
    (public_path filename : String) : Except APIError FileResponse :=
  let path := joinPath public_path filename
  if !dfs.pathExists path then .error .NotFound
  else if !dfs.openOk path then .error .Internal
  else
    .ok { contentType := (mimeGuess path).getD "application/octet-stream"
          contentDisposition := "attachment; filename=\"" ++ filename ++ "\"" }

/-! ### Spec-side definitions

The following definitions follow the spec's words, not the source; they
exist only to compare the source's behaviour against the spec in claim
statements. -/

/-- Split a character list at every `.`. -/
def splitDots : List Char → List (List Char)
  | [] => [[]]
  | c :: cs =>
      let r := splitDots cs
      if c = '.' then [] :: r
      else
        match r with
        | [] => [[c]]
        | h :: t => (c :: h) :: t

/-- Parse a non-empty all-digit character list as a decimal number. -/
def digitsToNat : List Char → Nat → Option Nat
  | [], acc => some acc
  | c :: cs, acc =>
      if c.isDigit then digitsToNat cs (acc * 10 + (c.toNat - 48)) else none

/-- Parse a non-empty decimal numeral. -/
def parseNatChars : List Char → Option Nat
  | [] => none
  | l => digitsToNat l 0

/-- Follows the spec's words (§4.1): parse a directory name as a
semantic version `major.minor.patch` with numeric components.  The
source contains no version parser at all; this definition is only used
to state claims about semantic-version ordering.  (Prerelease/build
suffixes are not needed for any input considered here.) -/
def specParseSemver (s : String) : Option (Nat × Nat × Nat) :=
  match splitDots s.data with
  | [a, b, c] =>
      match parseNatChars a, parseNatChars b, parseNatChars c with
      | some x, some y, some z => some (x, y, z)
      | _, _, _ => none
  | _ => none

/-- A file's creation timestamp with fallback to its modification
timestamp — the spec's payload-timestamp rule (§4.2 step 2b). -/
def fileCreatedOrModified (f : FileEntry) : Nat :=
  f.created.getD f.modified

/-- Follows the spec's words (§4.2 step 2c): the most recently observed
payload timestamp across all required platforms of a candidate folder. -/
def specMaxPayloadTs (fs : FS) (folder : String) : Nat :=
  (requiredPlatformNames.map fun pn =>
      (((fs.platformDir (folder ++ "/" ++ pn)).getD []).filter isPayloadFile).map
        fileCreatedOrModified).flatten.foldl max 0

/-! ### Closed forms used in claim statements -/

/-- The content of the last `.sig` file in a platform listing, `""` when
none: the last-write-wins closed form of the scan loop's signature. -/
def lastSigContent (entries : List FileEntry) : String :=
  match entries.reverse.find? isSigFile with
  | some f => f.content
  | none => ""

/-- The download URL of the last payload (non-`.sig`) file in a platform
listing, `""` when none: the closed form of the scan loop's url. -/
def lastPayloadUrl (kiosk_url newewst_folder_name platform_name : String)
    (entries : List FileEntry) : String :=
  match entries.reverse.find? isPayloadFile with
  | some f => mkUrl kiosk_url newewst_folder_name platform_name f.name
  | none => ""

/-- Projection of a `Platforms` value by platform name. -/
def platformOf (ps : Platforms) (pn : String) : PlatformDetails :=
  if pn = "linux_x86_64" then ps.linux_x86_64
  else if pn = "windows_x86_64" then ps.windows_x86_64
  else if pn = "darwin_x86_64" then ps.darwin_x86_64
  else ps.darwin_aarch64

/-- The created-or-modified timestamp of the last directory entry in a
root listing, `0` (the epoch) when the listing holds no directory: the
closed form of the root loop's `modified_date`. -/
def lastDirCreatedOrModified (root : List DirEntry) : Nat :=
  match root.reverse.find? DirEntry.isDir with
  | some e => e.created.getD e.modified
  | none => 0

/-! ### Concrete filesystem fixtures used by the claim theorems

All fixtures use `"rt"` as the kiosk directory and `"u"` as the
configured download base URL. -/

/-- A lookup-table platform-directory function for concrete examples:
paths present in the table are readable with the given entries, all
other paths fail to read. -/
def pdirOf (m : List (String × List FileEntry)) : String → Option (List FileEntry) :=
  fun p => (m.find? (fun q => q.1 == p)).map (fun q => q.2)

/-- A signature file `app.sig` with the given content and timestamps. -/
def sigEntry (content : String) (t : Nat) : FileEntry :=
  ⟨"app.sig", true, content, t, some t⟩

/-- A payload file `app.bin` with the given timestamps. -/
def binEntry (t : Nat) : FileEntry :=
  ⟨"app.bin", true, "", t, some t⟩

/-- All four platform subdirectories of `base`, each holding a signature
file and a payload file: a complete version folder. -/
def completePlatformDirs (base sigContent : String) (t : Nat) :
    List (String × List FileEntry) :=
  requiredPlatformNames.map
    (fun pn => (base ++ "/" ++ pn, [sigEntry sigContent t, binEntry t]))

/-- C1 fixture: `2.0.0` and `1.0.0` both complete, `1.0.0` modified more
recently (200 > 100). -/
def fsC1 : FS :=
  ⟨[⟨"2.0.0", true, 100, some 100⟩, ⟨"1.0.0", true, 200, some 200⟩],
   pdirOf (completePlatformDirs "rt/1.0.0" "S1" 200 ++
     completePlatformDirs "rt/2.0.0" "S2" 100)⟩

/-- C2 fixture: single version `1.0.0` whose linux directory is complete
while the other three platform directories are readable but empty. -/
def fsC2 : FS :=
  ⟨[⟨"1.0.0", true, 100, some 100⟩],
   pdirOf [("rt/1.0.0/linux_x86_64", [sigEntry "SIG" 100, binEntry 100]),
     ("rt/1.0.0/windows_x86_64", []),
     ("rt/1.0.0/darwin_x86_64", []),
     ("rt/1.0.0/darwin_aarch64", [])]⟩

/-- C3 fixture: `1.0.0` complete, `2.0.0` more recently modified but
with no platform subdirectories at all. -/
def fsC3 : FS :=
  ⟨[⟨"1.0.0", true, 100, some 100⟩, ⟨"2.0.0", true, 200, some 200⟩],
   pdirOf (completePlatformDirs "rt/1.0.0" "S1" 100)⟩

/-- C4 fixture: empty root; no path is readable. -/
def fsC4 : FS := ⟨[], fun _ => none⟩

/-- C4 witness fixture: the root holds only a plain file, no directory. -/
def fsC4w : FS := ⟨[⟨"readme.txt", false, 5, none⟩], fun _ => none⟩

/-- C5 fixture: a semver-named directory `1.0.0` and a more recently
modified directory whose name is not a semantic version, both complete. -/
def fsC5 : FS :=
  ⟨[⟨"1.0.0", true, 100, some 100⟩, ⟨"zzz-not-a-version", true, 300, some 300⟩],
   pdirOf (completePlatformDirs "rt/zzz-not-a-version" "S" 300 ++
     completePlatformDirs "rt/1.0.0" "S" 100)⟩

/-- C6 fixture: a single complete version `1.0.0`. -/
def fsC6 : FS :=
  ⟨[⟨"1.0.0", true, 100, some 100⟩],
   pdirOf (completePlatformDirs "rt/1.0.0" "S" 100)⟩

/-- The linux platform-directory listing of `fsC6`. -/
def entC6 : List FileEntry := [sigEntry "S" 100, binEntry 100]

/-- C7 fixture: a single complete version `1.0.0` whose directory entry
has created-or-modified time 100 while every payload file inside has
timestamp 500. -/
def fsC7 : FS :=
  ⟨[⟨"1.0.0", true, 100, some 100⟩],
   pdirOf (completePlatformDirs "rt/1.0.0" "S" 500)⟩

/-- C9 fixture: `2.0.0` (modified 300) is selected, but the last
enumerated root entry is `1.0.0` with created time 100. -/
def fsC9 : FS :=
  ⟨[⟨"2.0.0", true, 300, some 300⟩, ⟨"1.0.0", true, 50, some 100⟩],
   pdirOf (completePlatformDirs "rt/2.0.0" "S2" 300 ++
     completePlatformDirs "rt/1.0.0" "S1" 50)⟩

/-- The spec's empty-manifest sentinel (§3, §8): empty version, epoch
publish date, empty platform entries. -/
def specEmptySentinel : KioskVersionResponse :=
  ⟨"", "ini notes", "1970-01-01T00:00:00+00:00", initPlatforms⟩

/-- The response `getLatestVersion` produces on `fsC1`. -/
def respC1 : KioskVersionResponse :=
  ⟨"1.0.0", "ini notes", "1970-01-01T00:03:20+00:00",
   ⟨⟨"S1", "u/1.0.0/linux_x86_64/app.bin", "linux_x86_64"⟩,
    ⟨"S1", "u/1.0.0/windows_x86_64/app.bin", "windows_x86_64"⟩,
    ⟨"S1", "u/1.0.0/darwin_x86_64/app.bin", "darwin_x86_64"⟩,
    ⟨"S1", "u/1.0.0/darwin_aarch64/app.bin", "darwin_aarch64"⟩⟩⟩

/-- The response `getLatestVersion` produces on `fsC2`: linux populated,
the other three platforms empty. -/
def respC2 : KioskVersionResponse :=
  ⟨"1.0.0", "ini notes", "1970-01-01T00:01:40+00:00",
   ⟨⟨"SIG", "u/1.0.0/linux_x86_64/app.bin", "linux_x86_64"⟩,
    ⟨"", "", "windows_x86_64"⟩,
    ⟨"", "", "darwin_x86_64"⟩,
    ⟨"", "", "darwin_aarch64"⟩⟩⟩

/-- The response `getLatestVersion` produces on `fsC6`. -/
def respC6 : KioskVersionResponse :=
  ⟨"1.0.0", "ini notes", "1970-01-01T00:01:40+00:00",
   ⟨⟨"S", "u/1.0.0/linux_x86_64/app.bin", "linux_x86_64"⟩,
    ⟨"S", "u/1.0.0/windows_x86_64/app.bin", "windows_x86_64"⟩,
    ⟨"S", "u/1.0.0/darwin_x86_64/app.bin", "darwin_x86_64"⟩,
    ⟨"S", "u/1.0.0/darwin_aarch64/app.bin", "darwin_aarch64"⟩⟩⟩

/-- The response `getLatestVersion` produces on `fsC7`. -/
def respC7 : KioskVersionResponse :=
  ⟨"1.0.0", "ini notes", "1970-01-01T00:01:40+00:00",
   ⟨⟨"S", "u/1.0.0/linux_x86_64/app.bin", "linux_x86_64"⟩,
    ⟨"S", "u/1.0.0/windows_x86_64/app.bin", "windows_x86_64"⟩,
    ⟨"S", "u/1.0.0/darwin_x86_64/app.bin", "darwin_x86_64"⟩,
    ⟨"S", "u/1.0.0/darwin_aarch64/app.bin", "darwin_aarch64"⟩⟩⟩

/-- The response `getLatestVersion` produces on `fsC9`: the selected
version is `2.0.0` but the publish date is the created time (100) of the
last enumerated entry `1.0.0`. -/
def respC9 : KioskVersionResponse :=
  ⟨"2.0.0", "ini notes", "1970-01-01T00:01:40+00:00",
   ⟨⟨"S2", "u/2.0.0/linux_x86_64/app.bin", "linux_x86_64"⟩,
    ⟨"S2", "u/2.0.0/windows_x86_64/app.bin", "windows_x86_64"⟩,
    ⟨"S2", "u/2.0.0/darwin_x86_64/app.bin", "darwin_x86_64"⟩,
    ⟨"S2", "u/2.0.0/darwin_aarch64/app.bin", "darwin_aarch64"⟩⟩⟩

/-! ### Helper lemmas: the platform scan loop -/

theorem scanFileStep_signature (ku nm pn : String) (init : PlatformDetails)
    (f : FileEntry) :
    (scanFileStep ku nm pn init f).signature =
      if isSigFile f then f.content else init.signature := by
  unfold scanFileStep
  by_cases h1 : isSigFile f <;> by_cases h2 : isPayloadFile f <;> simp [h1, h2]

theorem scanFileStep_url (ku nm pn : String) (init : PlatformDetails)
    (f : FileEntry) :
    (scanFileStep ku nm pn init f).url =
      if isPayloadFile f then mkUrl ku nm pn f.name else init.url := by
  unfold scanFileStep
  by_cases h1 : isSigFile f <;> by_cases h2 : isPayloadFile f <;> simp [h1, h2]

theorem scanPlatform_cons (ku nm pn : String) (a : FileEntry) (l : List FileEntry)
    (init : PlatformDetails) :
    scanPlatform ku nm pn (a :: l) init =
      scanPlatform ku nm pn l (scanFileStep ku nm pn init a) := rfl

theorem scanPlatform_signature (ku nm pn : String) (entries : List FileEntry)
    (init : PlatformDetails) :
    (scanPlatform ku nm pn entries init).signature =
      match entries.reverse.find? isSigFile with
      | some f => f.content
      | none => init.signature := by
  induction entries generalizing init with
  | nil => rfl
  | cons a l ih =>
      rw [scanPlatform_cons, ih, List.reverse_cons, List.find?_append]
      cases hf : l.reverse.find? isSigFile with
      | some f => simp
      | none =>
          simp only [Option.none_or, List.find?_singleton]
          rw [scanFileStep_signature]
          by_cases h : isSigFile a <;> simp [h]

theorem scanPlatform_url (ku nm pn : String) (entries : List FileEntry)
    (init : PlatformDetails) :
    (scanPlatform ku nm pn entries init).url =
      match entries.reverse.find? isPayloadFile with
      | some f => mkUrl ku nm pn f.name
      | none => init.url := by
  induction entries generalizing init with
  | nil => rfl
  | cons a l ih =>
      rw [scanPlatform_cons, ih, List.reverse_cons, List.find?_append]
      cases hf : l.reverse.find? isPayloadFile with
      | some f => simp
      | none =>
          simp only [Option.none_or, List.find?_singleton]
          rw [scanFileStep_url]
          by_cases h : isPayloadFile a <;> simp [h]

theorem scanOnePlatform_error_of_none (fs : FS) (ku lf nm : String)
    (platform : PlatformDetails)
    (h : fs.platformDir (lf ++ "/" ++ platform.name) = none) :
    scanOnePlatform fs ku lf nm platform = .error .Internal := by
  simp [scanOnePlatform, h]

theorem scanOnePlatform_error_inv (fs : FS) (ku lf nm : String)
    (platform : PlatformDetails) (e : APIError)
    (h : scanOnePlatform fs ku lf nm platform = .error e) : e = .Internal := by
  unfold scanOnePlatform at h
  split at h
  · exact (Except.error.inj h).symm
  · exact absurd h (by simp)

theorem scanOnePlatform_ok_inv (fs : FS) (ku lf nm : String)
    (platform pd : PlatformDetails)
    (h : scanOnePlatform fs ku lf nm platform = .ok pd) :
    ∃ entries, fs.platformDir (lf ++ "/" ++ platform.name) = some entries ∧
      pd = scanPlatform ku nm platform.name entries platform := by
  unfold scanOnePlatform at h
  split at h
  · exact absurd h (by simp)
  · rename_i entries heq
    exact ⟨entries, heq, (Except.ok.inj h).symm⟩

/-! ### Helper lemmas: the root loop -/

theorem rootStep_of_not_dir (kd : String) (st : RootScanState) (e : DirEntry)
    (h : e.isDir = false) : rootStep kd st e = st := by
  unfold rootStep
  rw [if_neg (by simp [h])]

theorem rootStep_dir_none (kd : String) (st : RootScanState) (e : DirEntry)
    (hd : e.isDir = true) (hn : st.newest_folder = none) :
    rootStep kd st e =
      ⟨some (kd ++ "/" ++ e.name, e.modified), e.name, e.created.getD e.modified⟩ := by
  unfold rootStep
  rw [if_pos hd,
    show ({ st with modified_date := e.created.getD e.modified } :
      RootScanState).newest_folder = none from hn]

theorem rootStep_dir_some (kd : String) (st : RootScanState) (e : DirEntry)
    (p : String) (t : Nat) (hd : e.isDir = true)
    (hs : st.newest_folder = some (p, t)) :
    rootStep kd st e =
      if e.modified > t then
        ⟨some (kd ++ "/" ++ e.name, e.modified), e.name, e.created.getD e.modified⟩
      else ⟨some (p, t), st.newewst_folder_name, e.created.getD e.modified⟩ := by
  unfold rootStep
  rw [if_pos hd,
    show ({ st with modified_date := e.created.getD e.modified } :
      RootScanState).newest_folder = some (p, t) from hs]

theorem rootStep_modified_date (kd : String) (st : RootScanState) (e : DirEntry) :
    (rootStep kd st e).modified_date =
      if e.isDir then e.created.getD e.modified else st.modified_date := by
  by_cases hd : e.isDir
  · cases hm : st.newest_folder with
    | none => rw [rootStep_dir_none kd st e hd hm, if_pos hd]
    | some pt =>
        cases pt with | mk p t =>
        rw [rootStep_dir_some kd st e p t hd hm, if_pos hd]
        split <;> rfl
  · rw [rootStep_of_not_dir kd st e (by simpa using hd), if_neg hd]

theorem rootStep_cases (kd : String) (st : RootScanState) (e : DirEntry) :
    ((rootStep kd st e).newest_folder = st.newest_folder ∧
      (rootStep kd st e).newewst_folder_name = st.newewst_folder_name) ∨
    (e.isDir = true ∧
      (rootStep kd st e).newest_folder = some (kd ++ "/" ++ e.name, e.modified) ∧
      (rootStep kd st e).newewst_folder_name = e.name) := by
  by_cases hd : e.isDir
  · cases hm : st.newest_folder with
    | none =>
        right
        rw [rootStep_dir_none kd st e hd hm]
        exact ⟨hd, rfl, rfl⟩
    | some pt =>
        cases pt with | mk p t =>
        rw [rootStep_dir_some kd st e p t hd hm]
        by_cases hgt : e.modified > t
        · right; rw [if_pos hgt]; exact ⟨hd, rfl, rfl⟩
        · left; rw [if_neg hgt]; exact ⟨rfl, rfl⟩
  · rw [rootStep_of_not_dir kd st e (by simpa using hd)]
    exact Or.inl ⟨rfl, rfl⟩

theorem rootStep_keep (kd : String) (st : RootScanState) (e : DirEntry)
    (p : String) (t : Nat) (h : st.newest_folder = some (p, t))
    (hle : e.isDir = true → e.modified ≤ t) :
    (rootStep kd st e).newest_folder = some (p, t) ∧
    (rootStep kd st e).newewst_folder_name = st.newewst_folder_name := by
  by_cases hd : e.isDir
  · rw [rootStep_dir_some kd st e p t hd h, if_neg (not_lt.mpr (hle hd))]
    exact ⟨rfl, rfl⟩
  · rw [rootStep_of_not_dir kd st e (by simpa using hd)]
    exact ⟨h, rfl⟩

theorem rootStep_update (kd : String) (st : RootScanState) (e : DirEntry)
    (hd : e.isDir = true)
    (hcond : st.newest_folder = none ∨
      ∃ p t, st.newest_folder = some (p, t) ∧ t < e.modified) :
    (rootStep kd st e).newest_folder = some (kd ++ "/" ++ e.name, e.modified) ∧
    (rootStep kd st e).newewst_folder_name = e.name := by
  rcases hcond with hn | ⟨p, t, hs, hlt⟩
  · rw [rootStep_dir_none kd st e hd hn]; exact ⟨rfl, rfl⟩
  · rw [rootStep_dir_some kd st e p t hd hs, if_pos hlt]; exact ⟨rfl, rfl⟩

theorem rootStep_ub (kd : String) (st : RootScanState) (e : DirEntry)
    (hd : e.isDir = true) :
    ∃ p t, (rootStep kd st e).newest_folder = some (p, t) ∧ e.modified ≤ t := by
  cases hm : st.newest_folder with
  | none =>
      exact ⟨kd ++ "/" ++ e.name, e.modified,
        by rw [rootStep_dir_none kd st e hd hm], le_refl _⟩
  | some pt =>
      cases pt with | mk p t =>
      by_cases hgt : e.modified > t
      · exact ⟨kd ++ "/" ++ e.name, e.modified,
          by rw [rootStep_dir_some kd st e p t hd hm, if_pos hgt], le_refl _⟩
      · exact ⟨p, t,
          by rw [rootStep_dir_some kd st e p t hd hm, if_neg hgt], not_lt.mp hgt⟩

theorem rootStep_mono (kd : String) (st : RootScanState) (e : DirEntry)
    (p : String) (t : Nat) (h : st.newest_folder = some (p, t)) :
    ∃ p' t', (rootStep kd st e).newest_folder = some (p', t') ∧ t ≤ t' := by
  by_cases hd : e.isDir
  · by_cases hgt : e.modified > t
    · exact ⟨kd ++ "/" ++ e.name, e.modified,
        by rw [rootStep_dir_some kd st e p t hd h, if_pos hgt], le_of_lt hgt⟩
    · exact ⟨p, t,
        by rw [rootStep_dir_some kd st e p t hd h, if_neg hgt], le_refl _⟩
  · exact ⟨p, t,
      by rw [rootStep_of_not_dir kd st e (by simpa using hd)]; exact h, le_refl _⟩

theorem foldl_rootStep_keep (kd : String) (l : List DirEntry) :
    ∀ (st : RootScanState) (p : String) (t : Nat),
      st.newest_folder = some (p, t) →
      (∀ d ∈ l, d.isDir = true → d.modified ≤ t) →
      (l.foldl (rootStep kd) st).newest_folder = some (p, t) ∧
      (l.foldl (rootStep kd) st).newewst_folder_name = st.newewst_folder_name := by
  induction l with
  | nil => intro st p t h _; exact ⟨h, rfl⟩
  | cons a l ih =>
      intro st p t h hall
      simp only [List.foldl_cons]
      have hstep := rootStep_keep kd st a p t h
        (fun hd => hall a (List.mem_cons_self a l) hd)
      have hrest := ih (rootStep kd st a) p t hstep.1
        (fun d hd => hall d (List.mem_cons_of_mem a hd))
      exact ⟨hrest.1, hrest.2.trans hstep.2⟩

theorem foldl_rootStep_select (kd : String) (l : List DirEntry) :
    ∀ (st : RootScanState) (e : DirEntry), e ∈ l → e.isDir = true →
      (∀ d ∈ l, d.isDir = true → d ≠ e → d.modified < e.modified) →
      (st.newest_folder = none ∨
        ∃ p t, st.newest_folder = some (p, t) ∧ t < e.modified) →
      (l.foldl (rootStep kd) st).newest_folder =
        some (kd ++ "/" ++ e.name, e.modified) ∧
      (l.foldl (rootStep kd) st).newewst_folder_name = e.name := by
  induction l with
  | nil => intro st e he; exact absurd he (List.not_mem_nil e)
  | cons a l ih =>
      intro st e he hd hall hcond
      simp only [List.foldl_cons]
      by_cases hae : a = e
      · subst hae
        have hstep := rootStep_update kd st a hd hcond
        have hrest := foldl_rootStep_keep kd l (rootStep kd st a)
          (kd ++ "/" ++ a.name) a.modified hstep.1 ?_
        · exact ⟨hrest.1, hrest.2.trans hstep.2⟩
        · intro d hdl hdd
          by_cases hda : d = a
          · subst hda; exact le_refl _
          · exact le_of_lt (hall d (List.mem_cons_of_mem a hdl) hdd hda)
      · have hel : e ∈ l := by
          rcases List.mem_cons.mp he with h | h
          · exact absurd h.symm hae
          · exact h
        refine ih (rootStep kd st a) e hel hd
          (fun d hdl => hall d (List.mem_cons_of_mem a hdl)) ?_
        rcases rootStep_cases kd st a with ⟨h1, _⟩ | ⟨had, h1, _⟩
        · rw [h1]; exact hcond
        · right
          exact ⟨kd ++ "/" ++ a.name, a.modified, h1,
            hall a (List.mem_cons_self a l) had (fun h => hae h)⟩

theorem foldl_rootStep_mem (kd : String) (l : List DirEntry) :
    ∀ (st : RootScanState) (p : String) (t : Nat),
      (l.foldl (rootStep kd) st).newest_folder = some (p, t) →
      ((st.newest_folder = some (p, t) ∧
        (l.foldl (rootStep kd) st).newewst_folder_name = st.newewst_folder_name) ∨
       ∃ e, e ∈ l ∧ e.isDir = true ∧ p = kd ++ "/" ++ e.name ∧ t = e.modified ∧
        (l.foldl (rootStep kd) st).newewst_folder_name = e.name) := by
  induction l with
  | nil => intro st p t h; exact Or.inl ⟨h, rfl⟩
  | cons a l ih =>
      intro st p t h
      simp only [List.foldl_cons] at h ⊢
      rcases ih (rootStep kd st a) p t h with ⟨h1, h2⟩ | ⟨e, hel, hd, hp, ht, hn⟩
      · rcases rootStep_cases kd st a with ⟨hk1, hk2⟩ | ⟨had, hk1, hk2⟩
        · exact Or.inl ⟨hk1 ▸ h1, h2.trans hk2⟩
        · rw [hk1] at h1
          obtain ⟨hp, ht⟩ := Prod.mk.injEq .. ▸ Option.some.inj h1
          exact Or.inr ⟨a, List.mem_cons_self a l, had, hp.symm, ht.symm,
            h2.trans hk2⟩
      · exact Or.inr ⟨e, List.mem_cons_of_mem a hel, hd, hp, ht, hn⟩

theorem foldl_rootStep_mono (kd : String) (l : List DirEntry) :
    ∀ (st : RootScanState) (p : String) (t : Nat),
      st.newest_folder = some (p, t) →
      ∃ p' t', (l.foldl (rootStep kd) st).newest_folder = some (p', t') ∧ t ≤ t' := by
  induction l with
  | nil => intro st p t h; exact ⟨p, t, h, le_refl _⟩
  | cons a l ih =>
      intro st p t h
      simp only [List.foldl_cons]
      obtain ⟨p1, t1, h1, hle1⟩ := rootStep_mono kd st a p t h
      obtain ⟨p2, t2, h2, hle2⟩ := ih (rootStep kd st a) p1 t1 h1
      exact ⟨p2, t2, h2, hle1.trans hle2⟩

theorem foldl_rootStep_ub (kd : String) (l : List DirEntry) :
    ∀ (st : RootScanState) (d : DirEntry), d ∈ l → d.isDir = true →
      ∃ p t, (l.foldl (rootStep kd) st).newest_folder = some (p, t) ∧
        d.modified ≤ t := by
  induction l with
  | nil => intro st d hd; exact absurd hd (List.not_mem_nil d)
  | cons a l ih =>
      intro st d hdl hdd
      simp only [List.foldl_cons]
      rcases List.mem_cons.mp hdl with rfl | hmem
      · obtain ⟨p1, t1, h1, hle1⟩ := rootStep_ub kd st d hdd
        obtain ⟨p2, t2, h2, hle2⟩ := foldl_rootStep_mono kd l (rootStep kd st d) p1 t1 h1
        exact ⟨p2, t2, h2, hle1.trans hle2⟩
      · exact ih (rootStep kd st a) d hmem hdd

theorem foldl_rootStep_modified_date (kd : String) (l : List DirEntry) :
    ∀ st : RootScanState,
      (l.foldl (rootStep kd) st).modified_date =
        match l.reverse.find? DirEntry.isDir with
        | some e => e.created.getD e.modified
        | none => st.modified_date := by
  induction l with
  | nil => intro st; rfl
  | cons a l ih =>
      intro st
      simp only [List.foldl_cons]
      rw [ih, List.reverse_cons, List.find?_append]
      cases hf : l.reverse.find? DirEntry.isDir with
      | some f => simp
      | none =>
          simp only [Option.none_or, List.find?_singleton]
          rw [rootStep_modified_date]
          by_cases h : a.isDir <;> simp [h]

theorem foldl_rootStep_no_dirs (kd : String) (l : List DirEntry) :
    ∀ st : RootScanState, (∀ e ∈ l, e.isDir = false) →
      l.foldl (rootStep kd) st = st := by
  induction l with
  | nil => intro st _; rfl
  | cons a l ih =>
      intro st hall
      simp only [List.foldl_cons]
      rw [rootStep_of_not_dir kd st a (hall a (List.mem_cons_self a l))]
      exact ih st (fun e he => hall e (List.mem_cons_of_mem a he))

/-! ### Helper lemmas: `getLatestVersion` as a whole -/

theorem getLatestVersion_ok_inv (kd ku : String) (fs : FS) (r : KioskVersionResponse)
    (h : getLatestVersion kd ku fs = .ok r) :
    ∃ lx wd dx da,
      scanOnePlatform fs ku (latestFolder (rootScan kd fs.root))
        (rootScan kd fs.root).newewst_folder_name initPlatforms.linux_x86_64 = .ok lx ∧
      scanOnePlatform fs ku (latestFolder (rootScan kd fs.root))
        (rootScan kd fs.root).newewst_folder_name initPlatforms.windows_x86_64 = .ok wd ∧
      scanOnePlatform fs ku (latestFolder (rootScan kd fs.root))
        (rootScan kd fs.root).newewst_folder_name initPlatforms.darwin_x86_64 = .ok dx ∧
      scanOnePlatform fs ku (latestFolder (rootScan kd fs.root))
        (rootScan kd fs.root).newewst_folder_name initPlatforms.darwin_aarch64 = .ok da ∧
      r = ⟨(rootScan kd fs.root).newewst_folder_name, "ini notes",
        toRfc3339 (rootScan kd fs.root).modified_date, ⟨lx, wd, dx, da⟩⟩ := by
  simp only [getLatestVersion] at h
  split at h
  · exact absurd h (by simp)
  · rename_i lx hlx
    split at h
    · exact absurd h (by simp)
    · rename_i wd hwd
      split at h
      · exact absurd h (by simp)
      · rename_i dx hdx
        split at h
        · exact absurd h (by simp)
        · rename_i da hda
          exact ⟨lx, wd, dx, da, hlx, hwd, hdx, hda, (Except.ok.inj h).symm⟩

theorem getLatestVersion_pub_date (kd ku : String) (fs : FS)
    (r : KioskVersionResponse) (h : getLatestVersion kd ku fs = .ok r) :
    r.pub_date = toRfc3339 (lastDirCreatedOrModified fs.root) := by
  obtain ⟨lx, wd, dx, da, _, _, _, _, hr⟩ := getLatestVersion_ok_inv kd ku fs r h
  subst hr
  show toRfc3339 (rootScan kd fs.root).modified_date = _
  unfold rootScan
  rw [foldl_rootStep_modified_date kd fs.root ⟨none, "", 0⟩]
  unfold lastDirCreatedOrModified
  cases hf : fs.root.reverse.find? DirEntry.isDir <;> simp [hf]

theorem scanOnePlatform_fields (fs : FS) (ku lf nm : String)
    (platform pd : PlatformDetails)
    (hsig : platform.signature = "") (hurl : platform.url = "")
    (h : scanOnePlatform fs ku lf nm platform = .ok pd) :
    ∃ entries, fs.platformDir (lf ++ "/" ++ platform.name) = some entries ∧
      pd.signature = lastSigContent entries ∧
      pd.url = lastPayloadUrl ku nm platform.name entries := by
  obtain ⟨entries, hent, hpd⟩ := scanOnePlatform_ok_inv fs ku lf nm platform pd h
  subst hpd
  refine ⟨entries, hent, ?_, ?_⟩
  · rw [scanPlatform_signature]
    unfold lastSigContent
    cases hf : entries.reverse.find? isSigFile <;> simp [hf, hsig]
  · rw [scanPlatform_url]
    unfold lastPayloadUrl
    cases hf : entries.reverse.find? isPayloadFile <;> simp [hf, hurl]

theorem getLatestVersion_internal_of_none (kd ku : String) (fs : FS)
    (pn : String) (hpn : pn ∈ requiredPlatformNames)
    (hnone : fs.platformDir (latestFolder (rootScan kd fs.root) ++ "/" ++ pn) = none) :
    getLatestVersion kd ku fs = .error .Internal := by
  have hpn4 : pn = "linux_x86_64" ∨ pn = "windows_x86_64" ∨
      pn = "darwin_x86_64" ∨ pn = "darwin_aarch64" := by
    simpa [requiredPlatformNames] using hpn
  simp only [getLatestVersion]
  rcases hpn4 with rfl | rfl | rfl | rfl
  · rw [scanOnePlatform_error_of_none fs ku _ _ initPlatforms.linux_x86_64 hnone]
  · rcases hlx : scanOnePlatform fs ku (latestFolder (rootScan kd fs.root))
        (rootScan kd fs.root).newewst_folder_name initPlatforms.linux_x86_64 with e | lx
    · obtain rfl := scanOnePlatform_error_inv fs ku _ _ _ e hlx
      rfl
    · rw [scanOnePlatform_error_of_none fs ku _ _ initPlatforms.windows_x86_64 hnone]
  · rcases hlx : scanOnePlatform fs ku (latestFolder (rootScan kd fs.root))
        (rootScan kd fs.root).newewst_folder_name initPlatforms.linux_x86_64 with e | lx
    · obtain rfl := scanOnePlatform_error_inv fs ku _ _ _ e hlx
      rfl
    · rcases hwd : scanOnePlatform fs ku (latestFolder (rootScan kd fs.root))
          (rootScan kd fs.root).newewst_folder_name initPlatforms.windows_x86_64 with e | wd
      · obtain rfl := scanOnePlatform_error_inv fs ku _ _ _ e hwd
        rfl
      · rw [scanOnePlatform_error_of_none fs ku _ _ initPlatforms.darwin_x86_64 hnone]
  · rcases hlx : scanOnePlatform fs ku (latestFolder (rootScan kd fs.root))
        (rootScan kd fs.root).newewst_folder_name initPlatforms.linux_x86_64 with e | lx
    · obtain rfl := scanOnePlatform_error_inv fs ku _ _ _ e hlx
      rfl
    · rcases hwd : scanOnePlatform fs ku (latestFolder (rootScan kd fs.root))
          (rootScan kd fs.root).newewst_folder_name initPlatforms.windows_x86_64 with e | wd
      · obtain rfl := scanOnePlatform_error_inv fs ku _ _ _ e hwd
        rfl
      · rcases hdx : scanOnePlatform fs ku (latestFolder (rootScan kd fs.root))
            (rootScan kd fs.root).newewst_folder_name initPlatforms.darwin_x86_64 with e | dx
        · obtain rfl := scanOnePlatform_error_inv fs ku _ _ _ e hdx
          rfl
        · rw [scanOnePlatform_error_of_none fs ku _ _ initPlatforms.darwin_aarch64 hnone]

/-! ### Claim C1 -/

/-- C1 counterexample: on `fsC1` both `1.0.0` and `2.0.0` are complete,
yet `get_latest_version` returns `1.0.0` — the directory with the higher
modification time and the *lower* semantic version — refuting the claim
that the higher semantic version wins and mtime never decides. -/
theorem C1_counterexample_mtime_beats_semver :
    (getLatestVersion "rt" "u" fsC1).map KioskVersionResponse.version =
      .ok "1.0.0" ∧
    specParseSemver "1.0.0" = some (1, 0, 0) ∧
    specParseSemver "2.0.0" = some (2, 0, 0) := by decide

/-- C1 (amended): when `get_latest_version` succeeds, the returned
version is the name of the root subdirectory with the strictly greatest
modification time; semantic-version order plays no role. -/
theorem C1_version_is_most_recently_modified (kd ku : String) (fs : FS)
    (e : DirEntry) (r : KioskVersionResponse) (hmem : e ∈ fs.root)
    (hdir : e.isDir = true)
    (hmax : ∀ d ∈ fs.root, d.isDir = true → d ≠ e → d.modified < e.modified)
    (hok : getLatestVersion kd ku fs = .ok r) :
    r.version = e.name := by
  obtain ⟨lx, wd, dx, da, _, _, _, _, hr⟩ := getLatestVersion_ok_inv kd ku fs r hok
  subst hr
  show (rootScan kd fs.root).newewst_folder_name = e.name
  exact (foldl_rootStep_select kd fs.root ⟨none, "", 0⟩ e hmem hdir hmax
    (Or.inl rfl)).2

/-- C1 witness: the amended theorem applied to `fsC1`, whose `1.0.0`
entry has the unique maximal modification time. -/
theorem C1_amended_witness : respC1.version = "1.0.0" :=
  C1_version_is_most_recently_modified "rt" "u" fsC1
    ⟨"1.0.0", true, 200, some 200⟩ respC1 (by decide) rfl (by decide) (by decide)

/-! ### Claim C2 -/

/-- C2 counterexample: on `fsC2` the response has a populated linux
entry together with empty windows entries and a non-empty version —
neither fully populated nor the empty sentinel. -/
theorem C2_counterexample_partial_manifest :
    getLatestVersion "rt" "u" fsC2 = .ok respC2 ∧
    respC2.version ≠ "" ∧
    respC2.platforms.linux_x86_64.signature ≠ "" ∧
    respC2.platforms.linux_x86_64.url ≠ "" ∧
    respC2.platforms.windows_x86_64.signature = "" ∧
    respC2.platforms.windows_x86_64.url = "" := by decide

/-- C2 (amended): a successful manifest is not all-or-nothing; each
platform entry is populated independently — its signature is the content
of the last `.sig` file found in that platform's directory (empty if
none) and its url the download URL of the last payload file found
(empty if none). -/
theorem C2_platform_entries_populated_independently (kd ku : String) (fs : FS)
    (r : KioskVersionResponse) (hok : getLatestVersion kd ku fs = .ok r) :
    ∀ pn ∈ requiredPlatformNames, ∃ entries,
      fs.platformDir (latestFolder (rootScan kd fs.root) ++ "/" ++ pn) =
        some entries ∧
      (platformOf r.platforms pn).signature = lastSigContent entries ∧
      (platformOf r.platforms pn).url = lastPayloadUrl ku r.version pn entries := by
  obtain ⟨lx, wd, dx, da, hlx, hwd, hdx, hda, hr⟩ :=
    getLatestVersion_ok_inv kd ku fs r hok
  subst hr
  intro pn hpn
  have hpn4 : pn = "linux_x86_64" ∨ pn = "windows_x86_64" ∨
      pn = "darwin_x86_64" ∨ pn = "darwin_aarch64" := by
    simpa [requiredPlatformNames] using hpn
  rcases hpn4 with rfl | rfl | rfl | rfl
  · obtain ⟨entries, hent, h1, h2⟩ := scanOnePlatform_fields fs ku _ _
      initPlatforms.linux_x86_64 lx rfl rfl hlx
    exact ⟨entries, hent, h1, h2⟩
  · obtain ⟨entries, hent, h1, h2⟩ := scanOnePlatform_fields fs ku _ _
      initPlatforms.windows_x86_64 wd rfl rfl hwd
    exact ⟨entries, hent, h1, h2⟩
  · obtain ⟨entries, hent, h1, h2⟩ := scanOnePlatform_fields fs ku _ _
      initPlatforms.darwin_x86_64 dx rfl rfl hdx
    exact ⟨entries, hent, h1, h2⟩
  · obtain ⟨entries, hent, h1, h2⟩ := scanOnePlatform_fields fs ku _ _
      initPlatforms.darwin_aarch64 da rfl rfl hda
    exact ⟨entries, hent, h1, h2⟩

/-- C2 witness: the amended theorem applied to `fsC2` at the windows
platform, whose directory listing is empty, so both fields stay empty. -/
theorem C2_amended_witness :
    fsC2.platformDir
      (latestFolder (rootScan "rt" fsC2.root) ++ "/" ++ "windows_x86_64") =
      some [] ∧
    (platformOf respC2.platforms "windows_x86_64").signature =
      lastSigContent [] ∧
    (platformOf respC2.platforms "windows_x86_64").url =
      lastPayloadUrl "u" respC2.version "windows_x86_64" [] := by
  obtain ⟨entries, hent, h1, h2⟩ :=
    C2_platform_entries_populated_independently "rt" "u" fsC2 respC2 (by decide)
      "windows_x86_64" (by decide)
  have hconc : fsC2.platformDir
      (latestFolder (rootScan "rt" fsC2.root) ++ "/" ++ "windows_x86_64") =
      some [] := by decide
  rw [hconc] at hent
  obtain rfl : ([] : List FileEntry) = entries := Option.some.inj hent
  exact ⟨hconc, h1, h2⟩

/-! ### Claim C3 -/

/-- C3 counterexample: on `fsC3`, `1.0.0` is the only complete version
(resolution over it alone succeeds) and `2.0.0` above it is incomplete,
yet the call surfaces `Internal` instead of falling back to `1.0.0`. -/
theorem C3_counterexample_no_fallback :
    getLatestVersion "rt" "u" fsC3 = .error .Internal ∧
    (getLatestVersion "rt" "u"
        ⟨[⟨"1.0.0", true, 100, some 100⟩], fsC3.platformDir⟩).map
      KioskVersionResponse.version = .ok "1.0.0" := by decide

/-- C3 (amended): when any required platform subdirectory of the
selected (most-recently-modified) folder is missing or unreadable,
`get_latest_version` surfaces `APIError::Internal` to the caller; it
never advances to an older candidate. -/
theorem C3_missing_platform_dir_surfaces_internal (kd ku : String) (fs : FS)
    (pn : String) (hpn : pn ∈ requiredPlatformNames)
    (hnone : fs.platformDir (latestFolder (rootScan kd fs.root) ++ "/" ++ pn) =
      none) :
    getLatestVersion kd ku fs = .error .Internal :=
  getLatestVersion_internal_of_none kd ku fs pn hpn hnone

/-- C3 witness: the amended theorem applied to `fsC3`, whose selected
folder `rt/2.0.0` has no linux subdirectory. -/
theorem C3_amended_witness : getLatestVersion "rt" "u" fsC3 = .error .Internal :=
  C3_missing_platform_dir_surfaces_internal "rt" "u" fsC3 "linux_x86_64"
    (by decide) (by decide)

/-! ### Claim C4 -/

/-- C4 counterexample: on the empty root `fsC4` the call returns
`APIError::Internal`, not the empty sentinel. -/
theorem C4_counterexample_empty_root_errors :
    getLatestVersion "rt" "u" fsC4 = .error .Internal ∧
    getLatestVersion "rt" "u" fsC4 ≠ .ok specEmptySentinel := by decide

/-- C4 (amended): when the root listing contains no directory,
`latest_folder` stays `""` and the resolver reads the platform
directories under the filesystem root (`/linux_x86_64`, ...); when that
read fails — the realistic case — the request returns `Internal` instead
of the empty sentinel. -/
theorem C4_no_directories_yields_internal (kd ku : String) (fs : FS)
    (hnod : ∀ e ∈ fs.root, e.isDir = false)
    (hnone : fs.platformDir "/linux_x86_64" = none) :
    getLatestVersion kd ku fs = .error .Internal := by
  have hscan : rootScan kd fs.root = ⟨none, "", 0⟩ :=
    foldl_rootStep_no_dirs kd fs.root ⟨none, "", 0⟩ hnod
  refine getLatestVersion_internal_of_none kd ku fs "linux_x86_64" (by decide) ?_
  rw [show rootScan kd fs.root = (⟨none, "", 0⟩ : RootScanState) from hscan]
  exact hnone

/-- C4 witness: the amended theorem applied to `fsC4w`, whose root holds
only a plain file. -/
theorem C4_amended_witness : getLatestVersion "rt" "u" fsC4w = .error .Internal :=
  C4_no_directories_yields_internal "rt" "u" fsC4w (by decide) rfl

/-! ### Claim C5 -/

/-- C5 counterexample: on `fsC5` the discovery step selects the
directory `zzz-not-a-version`, whose name does not parse as a semantic
version, over the semver-named `1.0.0` — refuting both the exclusion of
non-semver names and semantic-version ordering. -/
theorem C5_counterexample_non_semver_selected :
    (getLatestVersion "rt" "u" fsC5).map KioskVersionResponse.version =
      .ok "zzz-not-a-version" ∧
    specParseSemver "zzz-not-a-version" = none ∧
    specParseSemver "1.0.0" = some (1, 0, 0) := by decide

/-- C5 (amended): the discovery loop considers every immediate
subdirectory regardless of its name — there is no semantic-version
parsing, filtering, or descending ordering — and records a directory
with maximal modification time among them. -/
theorem C5_discovery_selects_max_mtime_dir (kd : String) (root : List DirEntry)
    (p : String) (t : Nat)
    (hsome : (rootScan kd root).newest_folder = some (p, t)) :
    ∃ e, e ∈ root ∧ e.isDir = true ∧ p = kd ++ "/" ++ e.name ∧
      t = e.modified ∧ (rootScan kd root).newewst_folder_name = e.name ∧
      ∀ d ∈ root, d.isDir = true → d.modified ≤ t := by
  rcases foldl_rootStep_mem kd root ⟨none, "", 0⟩ p t hsome with
    ⟨h1, _⟩ | ⟨e, hmem, hdir, hp, ht, hname⟩
  · exact absurd h1 (by simp)
  · refine ⟨e, hmem, hdir, hp, ht, hname, ?_⟩
    intro d hd hdd
    obtain ⟨p', t', hsome', hle⟩ := foldl_rootStep_ub kd root ⟨none, "", 0⟩ d hd hdd
    have h2 : (rootScan kd root).newest_folder = some (p', t') := hsome'
    rw [hsome] at h2
    obtain ⟨-, ht'⟩ := Prod.mk.injEq .. ▸ Option.some.inj h2
    exact ht' ▸ hle

/-- C5 witness: the amended theorem applied to `fsC5.root`, identifying
the recorded entry as the non-semver-named `zzz-not-a-version`. -/
theorem C5_amended_witness :
    (rootScan "rt" fsC5.root).newewst_folder_name = "zzz-not-a-version" := by
  obtain ⟨e, hmem, hdir, hp, ht, hname, hmax⟩ :=
    C5_discovery_selects_max_mtime_dir "rt" fsC5.root "rt/zzz-not-a-version" 300
      (by decide)
  have he : e = ⟨"1.0.0", true, 100, some 100⟩ ∨
      e = ⟨"zzz-not-a-version", true, 300, some 300⟩ := by
    simpa [fsC5] using hmem
  rcases he with rfl | rfl
  · exact absurd ht (by decide)
  · exact hname

/-! ### Claim C6 -/

/-- C6 counterexample: on `fsC6` the populated linux url is
`u/1.0.0/linux_x86_64/app.bin`, without the `/download/` segment the
claim requires between the base URL and the version. -/
theorem C6_counterexample_url_lacks_download_segment :
    getLatestVersion "rt" "u" fsC6 = .ok respC6 ∧
    respC6.platforms.linux_x86_64.url = "u/1.0.0/linux_x86_64/app.bin" ∧
    respC6.platforms.linux_x86_64.url ≠
      "u" ++ "/download/" ++ "1.0.0" ++ "/" ++ "linux_x86_64" ++ "/" ++
        "app.bin" := by decide

/-- C6 (amended): a platform entry's url, when populated, equals
`{baseUrl}/{version}/{platform}/{filename}` — no `/download/` segment is
inserted — where `filename` names the last payload (non-`.sig`) file in
that platform's directory; the url stays empty exactly when no payload
file exists there. -/
theorem C6_url_shape_no_download_segment (kd ku : String) (fs : FS)
    (r : KioskVersionResponse) (hok : getLatestVersion kd ku fs = .ok r)
    (pn : String) (hpn : pn ∈ requiredPlatformNames) :
    ∃ entries,
      fs.platformDir (latestFolder (rootScan kd fs.root) ++ "/" ++ pn) =
        some entries ∧
      ((entries.reverse.find? isPayloadFile = none ∧
          (platformOf r.platforms pn).url = "") ∨
       (∃ f, entries.reverse.find? isPayloadFile = some f ∧
          (platformOf r.platforms pn).url =
            ku ++ "/" ++ r.version ++ "/" ++ pn ++ "/" ++ f.name)) := by
  obtain ⟨lx, wd, dx, da, hlx, hwd, hdx, hda, hr⟩ :=
    getLatestVersion_ok_inv kd ku fs r hok
  subst hr
  have hpn4 : pn = "linux_x86_64" ∨ pn = "windows_x86_64" ∨
      pn = "darwin_x86_64" ∨ pn = "darwin_aarch64" := by
    simpa [requiredPlatformNames] using hpn
  rcases hpn4 with rfl | rfl | rfl | rfl
  · obtain ⟨entries, hent, _, h2⟩ := scanOnePlatform_fields fs ku _ _
      initPlatforms.linux_x86_64 lx rfl rfl hlx
    refine ⟨entries, hent, ?_⟩
    cases hf : entries.reverse.find? isPayloadFile with
    | none => exact Or.inl ⟨rfl, by simp only [lastPayloadUrl, hf] at h2; exact h2⟩
    | some f =>
        exact Or.inr ⟨f, rfl, by
          simp only [lastPayloadUrl, hf, mkUrl] at h2; exact h2⟩
  · obtain ⟨entries, hent, _, h2⟩ := scanOnePlatform_fields fs ku _ _
      initPlatforms.windows_x86_64 wd rfl rfl hwd
    refine ⟨entries, hent, ?_⟩
    cases hf : entries.reverse.find? isPayloadFile with
    | none => exact Or.inl ⟨rfl, by simp only [lastPayloadUrl, hf] at h2; exact h2⟩
    | some f =>
        exact Or.inr ⟨f, rfl, by
          simp only [lastPayloadUrl, hf, mkUrl] at h2; exact h2⟩
  · obtain ⟨entries, hent, _, h2⟩ := scanOnePlatform_fields fs ku _ _
      initPlatforms.darwin_x86_64 dx rfl rfl hdx
    refine ⟨entries, hent, ?_⟩
    cases hf : entries.reverse.find? isPayloadFile with
    | none => exact Or.inl ⟨rfl, by simp only [lastPayloadUrl, hf] at h2; exact h2⟩
    | some f =>
        exact Or.inr ⟨f, rfl, by
          simp only [lastPayloadUrl, hf, mkUrl] at h2; exact h2⟩
  · obtain ⟨entries, hent, _, h2⟩ := scanOnePlatform_fields fs ku _ _
      initPlatforms.darwin_aarch64 da rfl rfl hda
    refine ⟨entries, hent, ?_⟩
    cases hf : entries.reverse.find? isPayloadFile with
    | none => exact Or.inl ⟨rfl, by simp only [lastPayloadUrl, hf] at h2; exact h2⟩
    | some f =>
        exact Or.inr ⟨f, rfl, by
          simp only [lastPayloadUrl, hf, mkUrl] at h2; exact h2⟩

/-- C6 witness: the amended theorem applied to `fsC6` at the linux
platform, whose payload is `app.bin`. -/
theorem C6_amended_witness :
    (platformOf respC6.platforms "linux_x86_64").url =
      "u" ++ "/" ++ respC6.version ++ "/" ++ "linux_x86_64" ++ "/" ++
        "app.bin" := by
  obtain ⟨entries, hent, hcase⟩ := C6_url_shape_no_download_segment "rt" "u"
    fsC6 respC6 (by decide) "linux_x86_64" (by decide)
  have hconc : fsC6.platformDir
      (latestFolder (rootScan "rt" fsC6.root) ++ "/" ++ "linux_x86_64") =
      some entC6 := by decide
  rw [hconc] at hent
  obtain rfl : entC6 = entries := Option.some.inj hent
  rcases hcase with ⟨hnone, _⟩ | ⟨f, hf, hurl⟩
  · exact absurd hnone (by decide)
  · have hfind : entC6.reverse.find? isPayloadFile = some (binEntry 100) := by
      decide
    rw [hfind] at hf
    obtain rfl : binEntry 100 = f := Option.some.inj hf
    exact hurl

/-! ### Claim C7 -/

/-- C7 counterexample: on `fsC7` every payload file carries timestamp
500, yet the response's publish date is the RFC3339 rendering of 100 —
the root directory entry's created time — so the publish date is not the
most recent payload timestamp. -/
theorem C7_counterexample_pub_date_ignores_payload_timestamps :
    getLatestVersion "rt" "u" fsC7 = .ok respC7 ∧
    specMaxPayloadTs fsC7 "rt/1.0.0" = 500 ∧
    respC7.pub_date = toRfc3339 100 ∧
    respC7.pub_date ≠ toRfc3339 500 := by decide

/-- C7 (amended): a successful response's publish date is the RFC3339
rendering of the created-or-modified timestamp of the last directory
entry enumerated in the root listing; payload-file timestamps are never
consulted. -/
theorem C7_pub_date_from_last_root_entry (kd ku : String) (fs : FS)
    (r : KioskVersionResponse) (hok : getLatestVersion kd ku fs = .ok r) :
    r.pub_date = toRfc3339 (lastDirCreatedOrModified fs.root) :=
  getLatestVersion_pub_date kd ku fs r hok

/-- C7 witness: the amended theorem applied to `fsC7`. -/
theorem C7_amended_witness :
    respC7.pub_date = toRfc3339 (lastDirCreatedOrModified fsC7.root) :=
  C7_pub_date_from_last_root_entry "rt" "u" fsC7 respC7 (by decide)

/-! ### Claim C8 -/

/-- C8: when the joined download path does not exist on disk,
`download_file` returns `NotFound` — not an internal error and not a
file response. -/
theorem C8_download_missing_path_not_found (dfs : DownloadFS)
    (mimeGuess : String → Option String) (public_path filename : String)
    (h : dfs.pathExists (joinPath public_path filename) = false) :
    downloadFile dfs mimeGuess public_path filename = .error .NotFound := by
  simp [downloadFile, h]

/-- C8 witness: a request for a file missing from the public directory. -/
theorem C8_witness :
    downloadFile ⟨fun _ => false, fun _ => true⟩ (fun _ => none) "./public"
      "missing.bin" = .error .NotFound :=
  C8_download_missing_path_not_found ⟨fun _ => false, fun _ => true⟩
    (fun _ => none) "./public" "missing.bin" rfl

/-! ### Claim C9 -/

/-- C9: the publish date of every successful response is derived from
the created-or-modified timestamp of the last directory entry enumerated
in the root listing — not the selected directory's — and on `fsC9` the
returned version is `2.0.0` while the publish date comes from `1.0.0`,
the last enumerated entry. -/
theorem C9_pub_date_from_last_enumerated_dir :
    (∀ (kd ku : String) (fs : FS) (r : KioskVersionResponse),
      getLatestVersion kd ku fs = .ok r →
      r.pub_date = toRfc3339 (lastDirCreatedOrModified fs.root)) ∧
    getLatestVersion "rt" "u" fsC9 = .ok respC9 ∧
    respC9.version = "2.0.0" ∧
    respC9.pub_date = toRfc3339 100 ∧
    (fsC9.root.reverse.find? DirEntry.isDir).map DirEntry.name =
      some "1.0.0" ∧
    respC9.pub_date ≠ toRfc3339 300 := by
  exact ⟨fun kd ku fs r h => getLatestVersion_pub_date kd ku fs r h, by decide⟩

/-- C9 witness: the universal part applied to `fsC9`. -/
theorem C9_witness :
    respC9.pub_date = toRfc3339 (lastDirCreatedOrModified fsC9.root) :=
  C9_pub_date_from_last_enumerated_dir.1 "rt" "u" fsC9 respC9 (by decide)

/-! ### Claim C10 -/

/-- C10: when the target version directory already exists,
`create_kiosk_version` returns the `FolderExist` error and creates no
directory — the filesystem is unchanged on this path. -/
theorem C10_existing_version_folder_rejected (cfs : CreateFS)
    (kiosk_directory version : String)
    (hread : cfs.readRootOk = true)
    (hexists : cfs.tryExists (kiosk_directory ++ "/" ++ version) = some true) :
    createKioskVersion cfs kiosk_directory version = (.error .FolderExist, []) := by
  simp [createKioskVersion, hread, hexists]

/-- C10 witness: creating version `1.0.0` when `rt/1.0.0` exists. -/
theorem C10_witness :
    createKioskVersion ⟨true, fun _ => some true, fun _ => true⟩ "rt" "1.0.0" =
      (.error .FolderExist, []) :=
  C10_existing_version_folder_rejected ⟨true, fun _ => some true, fun _ => true⟩
    "rt" "1.0.0" rfl rfl

end Kiosk
